import Mathlib

/-!
Verification of the SRT → LRC subtitle conversion pipeline of
`youtube_to_mp3_with_lyrics.py`.

Embedding conventions: Python strings are modelled as `List Char`,
Python floats as exact rationals (`ℚ`), and fallible parsing as
`Except`/`Option` values.  File I/O is a boundary concern: the document
parser takes the file's text content as its argument.
-/

set_option maxRecDepth 100000

namespace YtLrc

/-- Python strings, modelled as lists of characters. -/
abbrev Str := List Char

/-- One subtitle cue, the tuple `(start_time, end_time, text)` produced by
`parse_srt_file`. -/
abbrev Cue := ℚ × ℚ × Str

/-- Whitespace characters recognised by Python's `str.strip()` / `\s`
(ASCII range). -/
def pySpace (c : Char) : Bool :=
  c == ' ' || c == '\t' || c == '\n' || c == '\x0b' || c == '\x0c' || c == '\r'

/-- Python `str.strip()`: remove leading and trailing whitespace. -/
def strip (s : Str) : Str :=
  ((s.dropWhile pySpace).reverse.dropWhile pySpace).reverse

/-- Python `str.split(sep)` for a single-character separator: adjacent
separators produce empty fields, and the result is never the empty list. -/
def splitOnChar (sep : Char) : Str → List Str
  | [] => [[]]
  | c :: cs =>
    if c = sep then [] :: splitOnChar sep cs
    else
      match splitOnChar sep cs with
      | [] => [[c]]
      | s :: ss => (c :: s) :: ss

/-- Numeric value of a decimal digit character. -/
def digitVal (c : Char) : ℕ := c.toNat - 48

/-- Value of a string of decimal digits, most significant first. -/
def digitsVal (s : Str) : ℕ := s.foldl (fun a c => 10 * a + digitVal c) 0

/-- Split an optional leading sign off a (stripped) numeric literal,
returning `(isNegative, rest)` as Python's `int`/`float` parsing does. -/
def splitSign (t : Str) : Bool × Str :=
  if t.head? = some '-' then (true, t.tail)
  else if t.head? = some '+' then (false, t.tail)
  else (false, t)

/-- Python `int(s)`: optional surrounding whitespace, optional sign, then
decimal digits; anything else raises `ValueError` (modelled as `none`). -/
def pyInt? (s : Str) : Option ℤ :=
  let p := splitSign (strip s)
  if p.2 ≠ [] ∧ p.2.all Char.isDigit then
    some ((if p.1 then -1 else 1) * (digitsVal p.2 : ℤ))
  else none

/-- Python `float(s)` restricted to plain decimal literals (the only forms
the pipeline feeds it): optional whitespace and sign, digits with at most
one `.` and at least one digit overall. -/
def pyFloat? (s : Str) : Option ℚ :=
  let p := splitSign (strip s)
  match splitOnChar '.' p.2 with
  | [a] =>
    if a ≠ [] ∧ a.all Char.isDigit then
      some ((if p.1 then -1 else 1) * (digitsVal a : ℚ))
    else none
  | [a, b] =>
    if a ++ b ≠ [] ∧ (a ++ b).all Char.isDigit then
      some ((if p.1 then -1 else 1) *
        ((digitsVal a : ℚ) + (digitsVal b : ℚ) / 10 ^ b.length))
    else none
  | _ => none

instance {ε α : Type} [DecidableEq ε] [DecidableEq α] : DecidableEq (Except ε α) :=
  fun x y =>
    match x, y with
    | .ok a, .ok b =>
      if h : a = b then isTrue (by rw [h])
      else isFalse (by intro hc; cases hc; exact h rfl)
    | .ok _, .error _ => isFalse (by intro hc; cases hc)
    | .error _, .ok _ => isFalse (by intro hc; cases hc)
    | .error e, .error f =>
      if h : e = f then isTrue (by rw [h])
      else isFalse (by intro hc; cases hc; exact h rfl)

/-- First line of `parse_time`: `if '.' not in time_str: time_str += '.000'`. -/
def timeDefaulted (time_str : Str) : Str :=
  if '.' ∈ time_str then time_str else time_str ++ '.' :: ['0', '0', '0']

/-- Second line of `parse_time`: `parts = time_str.strip().split(':')`. -/
def timeParts (time_str : Str) : List Str :=
  splitOnChar ':' (strip (timeDefaulted time_str))

/-- The `parse_time` function: parse `HH:MM:SS.mmm` or `MM:SS.mmm` into
elapsed seconds.  A wrong component count raises
`ValueError(f"Unable to parse time format: {time_str}")` (note: `time_str`
has already been suffixed with `.000` when it had no fractional part);
a non-numeric component raises the `ValueError` coming from `int`/`float`. -/
def parse_time (time_str : Str) : Except Str ℚ :=
  match timeParts time_str with
  | [p0, p1, p2] =>
    match pyInt? p0 with
    | none => .error ("invalid literal for int: ".toList ++ p0)
    | some h =>
      match pyInt? p1 with
      | none => .error ("invalid literal for int: ".toList ++ p1)
      | some m =>
        match pyFloat? p2 with
        | none => .error ("could not convert string to float: ".toList ++ p2)
        | some s => .ok ((h : ℚ) * 3600 + (m : ℚ) * 60 + s)
  | [p0, p1] =>
    match pyInt? p0 with
    | none => .error ("invalid literal for int: ".toList ++ p0)
    | some m =>
      match pyFloat? p1 with
      | none => .error ("could not convert string to float: ".toList ++ p1)
      | some s => .ok ((m : ℚ) * 60 + s)
  | _ => .error ("Unable to parse time format: ".toList ++ timeDefaulted time_str)

/-- Python float floor division `a // b` (result as a float value). -/
def pyFloorDiv (a b : ℚ) : ℚ := ((⌊a / b⌋ : ℤ) : ℚ)

/-- Python float modulo `a % b`, i.e. `a - b * (a // b)`. -/
def pyMod (a b : ℚ) : ℚ := a - b * pyFloorDiv a b

/-- Python `int(x)` on a float: truncation toward zero. -/
def pyTrunc (q : ℚ) : ℤ := if q < 0 then -⌊-q⌋ else ⌊q⌋

/-- Decimal rendering of a natural number, as Python's `str`/`format`. -/
def natToStr (n : ℕ) : Str :=
  if n = 0 then ['0']
  else ((Nat.digits 10 n).map fun d => Char.ofNat (48 + d)).reverse

/-- Python's `{x:02d}` format for a non-negative integer: pad with `0` to
width two, wider numbers kept whole. -/
def pad2 (n : ℕ) : Str := if n < 10 then '0' :: natToStr n else natToStr n

/-- The `seconds_to_lrc_time` function: clamp negatives to zero, then
render `[MM:SS.CC]` with unbounded minutes and truncated centiseconds.
After the clamp every formatted integer is non-negative, so Python's
`{x:02d}` on it is `pad2` of its absolute value. -/
def seconds_to_lrc_time (seconds : ℚ) : Str :=
  let s := if seconds < 0 then 0 else seconds
  let minutes := pyTrunc (pyFloorDiv s 60)
  let secs := pyMod s 60
  let centiseconds := pyTrunc (pyMod (secs * 100) 100)
  '[' :: pad2 minutes.toNat ++ ':' :: pad2 (pyTrunc secs).toNat ++
    '.' :: pad2 centiseconds.toNat ++ [']']

/-- The minute/second portion of a rendered `[MM:SS.CC]` stamp: the text
between the brackets. -/
def lrcInner (s : Str) : Str := (s.drop 1).dropLast

/-- Python `str.replace(',', '.')`: normalize every comma to a dot. -/
def replaceCommaDot (s : Str) : Str := s.map fun c => if c = ',' then '.' else c

/-- Match exactly `n` decimal digits (`\d{n}`) at the head, returning the
digits and the rest. -/
def takeDigits : ℕ → Str → Option (Str × Str)
  | 0, s => some ([], s)
  | _ + 1, [] => none
  | n + 1, c :: rest =>
    if c.isDigit then (takeDigits n rest).map fun p => (c :: p.1, p.2) else none

/-- Match one literal character at the head. -/
def expectChar (c : Char) : Str → Option Str
  | [] => none
  | x :: rest => if x = c then some rest else none

/-- Match one group `\d{2}:\d{2}:\d{2},\d{3}` of the SRT time pattern at
the head, returning the matched text and the rest. -/
def matchTsAt (s : Str) : Option (Str × Str) := do
  let (d1, r) ← takeDigits 2 s
  let r ← expectChar ':' r
  let (d2, r) ← takeDigits 2 r
  let r ← expectChar ':' r
  let (d3, r) ← takeDigits 2 r
  let r ← expectChar ',' r
  let (d4, r) ← takeDigits 3 r
  pure (d1 ++ ':' :: d2 ++ ':' :: d3 ++ ',' :: d4, r)

/-- Match `\s*-->\s*` at the head.  The greedy whitespace run is exact
here because `-` is not whitespace. -/
def matchArrowAt (s : Str) : Option Str := do
  let r ← expectChar '-' (s.dropWhile pySpace)
  let r ← expectChar '-' r
  let r ← expectChar '>' r
  pure (r.dropWhile pySpace)

/-- Match the whole pattern
`(\d{2}:\d{2}:\d{2},\d{3})\s*-->\s*(\d{2}:\d{2}:\d{2},\d{3})` at the head,
returning the two captured groups. -/
def matchPairAt (s : Str) : Option (Str × Str) := do
  let (g1, r) ← matchTsAt s
  let r ← matchArrowAt r
  let (g2, _) ← matchTsAt r
  pure (g1, g2)

/-- Python `re.search` with the SRT time pattern: try every start
position left to right (every alternative of the pattern is
fixed-length, so this leftmost scan is exact). -/
def searchTime : Str → Option (Str × Str)
  | [] => none
  | c :: rest => (matchPairAt (c :: rest)).orElse fun _ => searchTime rest

/-- Locate the end of an inline tag: skip to just after the first `>`. -/
def tagEnd? : Str → Option Str
  | [] => none
  | '>' :: rest => some rest
  | _ :: rest => tagEnd? rest

/-- Worker for `re.sub(r'<[^>]+>', '', text)`: remove every non-overlapping
leftmost match.  `fuel` bounds the recursion; every step consumes at least
one character, so `fuel = length` never runs out. -/
def stripTagsGo : ℕ → Str → Str
  | 0, s => s
  | _ + 1, [] => []
  | fuel + 1, c :: rest =>
    if c = '<' then
      match rest with
      | [] => ['<']
      | r0 :: rr =>
        if r0 = '>' then '<' :: stripTagsGo fuel rest
        else
          match tagEnd? (r0 :: rr) with
          | some rest' => stripTagsGo fuel rest'
          | none => '<' :: stripTagsGo fuel rest
    else c :: stripTagsGo fuel rest

/-- Python `re.sub(r'<[^>]+>', '', text)`: strip inline `<...>` markup. -/
def stripTags (s : Str) : Str := stripTagsGo s.length s

/-- One iteration of the block loop in `parse_srt_file`: a block yields a
cue when it has at least three lines, its second line contains the SRT
time pattern, both timestamps parse after `,` → `.` normalization, and
the joined, tag-stripped text is non-empty; otherwise it yields nothing
(`continue`, warning, or the empty-text discard). -/
def blockCue (block : Str) : Option Cue :=
  match splitOnChar '\n' (strip block) with
  | _ :: time_line :: t0 :: trest =>
    match searchTime time_line with
    | none => none
    | some (g1, g2) =>
      match parse_time (replaceCommaDot g1), parse_time (replaceCommaDot g2) with
      | .ok start_sec, .ok end_sec =>
        let text := strip (stripTags (strip (List.intercalate [' '] (t0 :: trest))))
        if text = [] then none else some (start_sec, end_sec, text)
      | _, _ => none
  | _ => none

/-- Python `str.split('\n\n')`: split on every non-overlapping blank-line
separator, left to right. -/
def splitOnNlNl : Str → List Str
  | [] => [[]]
  | '\n' :: '\n' :: rest => [] :: splitOnNlNl rest
  | c :: rest =>
    match splitOnNlNl rest with
    | [] => [[c]]
    | s :: ss => (c :: s) :: ss

/-- The deduplication loop of `parse_srt_file`, after the first cue has
been retained: keep `c` only when its text differs from the previous
retained cue AND its start is more than `0.1` away. -/
def dedupGo (last : Cue) : List Cue → List Cue
  | [] => []
  | c :: rest =>
    if c.2.2 ≠ last.2.2 ∧ |c.1 - last.1| > 0.1 then c :: dedupGo c rest
    else dedupGo last rest

/-- The whole deduplication pass: the first cue is always retained
(`not filtered_subtitles` is true), later cues are compared against the
last retained one. -/
def dedup : List Cue → List Cue
  | [] => []
  | c :: rest => c :: dedupGo c rest

/-- The `parse_srt_file` function, applied to the already-read file
content: strip a BOM, split into blank-line-separated blocks, extract a
cue per block, sort by start time (Python's `sorted` is a stable sort,
modelled by stable insertion sort on the start key) and deduplicate. -/
def parse_srt_file (content : Str) : List Cue :=
  let content := if content.head? = some '\uFEFF' then content.tail else content
  let subtitles := (splitOnNlNl (strip content)).filterMap blockCue
  dedup (List.insertionSort (fun a b => a.1 ≤ b.1) subtitles)

/-- The `filter_subtitles` function: keep cues overlapping the window. -/
def filter_subtitles (subs : List Cue) (tstart tend : ℚ) : List Cue :=
  subs.filter fun sub => decide (sub.1 < tend ∧ sub.2.1 > tstart)

/-- The `convert_to_lrc_lines` function: render each cue whose remapped
start is non-negative; cues with a negative remapped start produce no
line at all. -/
def convert_to_lrc_lines (subs : List Cue) (offset : ℚ) : List Str :=
  (subs.filter fun sub => decide (sub.1 - offset ≥ 0)).map
    fun sub => seconds_to_lrc_time (sub.1 - offset) ++ sub.2.2


/-! ### Character and string lemmas -/

theorem char_ne_of_isDigit {c x : Char} (hc : c.isDigit = true)
    (hx : x.isDigit = false) : c ≠ x := by
  intro he
  rw [he, hx] at hc
  cases hc

theorem pySpace_false_of_isDigit {c : Char} (hc : c.isDigit = true) :
    pySpace c = false := by
  unfold pySpace
  simp only [Bool.or_eq_false_iff, beq_eq_false_iff_ne]
  exact ⟨⟨⟨⟨⟨char_ne_of_isDigit hc (by decide), char_ne_of_isDigit hc (by decide)⟩,
    char_ne_of_isDigit hc (by decide)⟩, char_ne_of_isDigit hc (by decide)⟩,
    char_ne_of_isDigit hc (by decide)⟩, char_ne_of_isDigit hc (by decide)⟩

theorem dropWhile_eq_self_of_none {p : Char → Bool} {s : Str}
    (h : ∀ c ∈ s, p c = false) : s.dropWhile p = s := by
  cases s with
  | nil => rfl
  | cons a t => simp [List.dropWhile_cons, h a (by simp)]

theorem strip_eq_self {s : Str} (h : ∀ c ∈ s, pySpace c = false) :
    strip s = s := by
  unfold strip
  rw [dropWhile_eq_self_of_none h, dropWhile_eq_self_of_none (by
    intro c hc
    exact h c (List.mem_reverse.mp hc)), List.reverse_reverse]

theorem splitOnChar_ne_nil (sep : Char) (s : Str) : splitOnChar sep s ≠ [] := by
  cases s with
  | nil => simp [splitOnChar]
  | cons c cs =>
    unfold splitOnChar
    by_cases h : c = sep
    · simp [h]
    · simp only [h, if_false]
      match splitOnChar sep cs with
      | [] => simp
      | s :: ss => simp

theorem splitOnChar_of_not_mem {sep : Char} {s : Str} (h : sep ∉ s) :
    splitOnChar sep s = [s] := by
  induction s with
  | nil => rfl
  | cons c cs ih =>
    have hc : ¬c = sep := fun he => h (he ▸ List.mem_cons_self c cs)
    have hcs : sep ∉ cs := fun hm => h (List.mem_cons_of_mem c hm)
    unfold splitOnChar
    rw [if_neg hc, ih hcs]

theorem splitOnChar_cons (sep c : Char) (cs : Str) :
    splitOnChar sep (c :: cs) =
      if c = sep then [] :: splitOnChar sep cs
      else
        match splitOnChar sep cs with
        | [] => [[c]]
        | s :: ss => (c :: s) :: ss := rfl

theorem splitOnChar_append_cons {sep : Char} {a : Str} (h : sep ∉ a) (r : Str) :
    splitOnChar sep (a ++ sep :: r) = a :: splitOnChar sep r := by
  induction a with
  | nil => simp [splitOnChar]
  | cons c cs ih =>
    have hc : ¬c = sep := fun he => h (he ▸ List.mem_cons_self c cs)
    have hcs : sep ∉ cs := fun hm => h (List.mem_cons_of_mem c hm)
    rw [List.cons_append, splitOnChar_cons, if_neg hc, ih hcs]


/-! ### Decimal rendering and its round-trip -/

theorem digitVal_chr {d : ℕ} (h : d < 10) :
    digitVal (Char.ofNat (48 + d)) = d := by
  interval_cases d <;> rfl

theorem isDigit_chr {d : ℕ} (h : d < 10) :
    (Char.ofNat (48 + d)).isDigit = true := by
  interval_cases d <;> rfl

theorem foldr_digits_ofDigits {L : List ℕ} (h : ∀ d ∈ L, d < 10) :
    List.foldr (fun d a => 10 * a + digitVal (Char.ofNat (48 + d))) 0 L =
      Nat.ofDigits 10 L := by
  induction L with
  | nil => simp [Nat.ofDigits_nil]
  | cons d L ih =>
    have hd : d < 10 := h d (by simp)
    have hL : ∀ x ∈ L, x < 10 := fun x hx => h x (by simp [hx])
    simp only [List.foldr_cons, ih hL, Nat.ofDigits_cons, digitVal_chr hd]
    ring

theorem digitsVal_natToStr (n : ℕ) : digitsVal (natToStr n) = n := by
  by_cases h0 : n = 0
  · subst h0; decide
  · unfold natToStr digitsVal
    rw [if_neg h0, List.foldl_reverse, List.foldr_map,
      foldr_digits_ofDigits (fun d hd => Nat.digits_lt_base (by norm_num) hd),
      Nat.ofDigits_digits]

theorem natToStr_all_digits (n : ℕ) : ∀ c ∈ natToStr n, c.isDigit = true := by
  intro c hc
  unfold natToStr at hc
  by_cases h0 : n = 0
  · simp [h0] at hc
    subst hc; rfl
  · rw [if_neg h0, List.mem_reverse, List.mem_map] at hc
    obtain ⟨d, hd, rfl⟩ := hc
    exact isDigit_chr (Nat.digits_lt_base (by norm_num) hd)

theorem natToStr_ne_nil (n : ℕ) : natToStr n ≠ [] := by
  unfold natToStr
  by_cases h0 : n = 0
  · simp [h0]
  · rw [if_neg h0]
    simp [Nat.digits_ne_nil_iff_ne_zero.mpr h0]

theorem pad2_all_digits (n : ℕ) : ∀ c ∈ pad2 n, c.isDigit = true := by
  intro c hc
  unfold pad2 at hc
  by_cases h : n < 10
  · rw [if_pos h] at hc
    rcases List.mem_cons.mp hc with rfl | hc
    · rfl
    · exact natToStr_all_digits n c hc
  · rw [if_neg h] at hc
    exact natToStr_all_digits n c hc

theorem pad2_ne_nil (n : ℕ) : pad2 n ≠ [] := by
  unfold pad2
  by_cases h : n < 10
  · simp [h]
  · rw [if_neg h]; exact natToStr_ne_nil n

theorem digitsVal_cons_zero (s : Str) : digitsVal ('0' :: s) = digitsVal s := rfl

theorem digitsVal_pad2 (n : ℕ) : digitsVal (pad2 n) = n := by
  unfold pad2
  by_cases h : n < 10
  · rw [if_pos h, digitsVal_cons_zero, digitsVal_natToStr]
  · rw [if_neg h, digitsVal_natToStr]

theorem natToStr_length_lt_ten {n : ℕ} (h : n < 10) :
    (natToStr n).length = 1 := by
  unfold natToStr
  by_cases h0 : n = 0
  · simp [h0]
  · rw [if_neg h0, Nat.digits_def' (by norm_num : (1:ℕ) < 10) (Nat.pos_of_ne_zero h0),
      Nat.div_eq_of_lt h]
    simp

theorem pad2_length {n : ℕ} (h : n < 100) : (pad2 n).length = 2 := by
  unfold pad2
  by_cases h10 : n < 10
  · rw [if_pos h10]
    simp [natToStr_length_lt_ten h10]
  · rw [if_neg h10]
    unfold natToStr
    have h0 : n ≠ 0 := by omega
    rw [if_neg h0, Nat.digits_def' (by norm_num : (1:ℕ) < 10) (Nat.pos_of_ne_zero h0),
      Nat.digits_def' (by norm_num : (1:ℕ) < 10) (by omega : 0 < n / 10),
      show n / 10 / 10 = 0 from by omega, Nat.digits_zero]
    simp


/-! ### Evaluating the numeric-literal parsers on digit strings -/

theorem all_digits_mem {s : Str} (hd : s.all Char.isDigit = true) :
    ∀ c ∈ s, c.isDigit = true :=
  fun c hc => List.all_eq_true.mp hd c hc

theorem noSpace_of_digits {s : Str} (hd : s.all Char.isDigit = true) :
    ∀ c ∈ s, pySpace c = false :=
  fun c hc => pySpace_false_of_isDigit (all_digits_mem hd c hc)

theorem splitSign_of_head {s : Str} (h1 : s.head? ≠ some '-')
    (h2 : s.head? ≠ some '+') : splitSign s = (false, s) := by
  unfold splitSign
  rw [if_neg h1, if_neg h2]

theorem splitSign_digits {s : Str} (hd : s.all Char.isDigit = true) :
    splitSign s = (false, s) := by
  apply splitSign_of_head <;>
  · cases s with
    | nil => simp
    | cons c t =>
      have hc : c.isDigit = true := all_digits_mem hd c (by simp)
      simp only [List.head?, ne_eq, Option.some.injEq]
      intro he
      exact char_ne_of_isDigit hc (by decide) he

theorem pyInt?_digits {s : Str} (hne : s ≠ []) (hd : s.all Char.isDigit = true) :
    pyInt? s = some ((digitsVal s : ℕ) : ℤ) := by
  unfold pyInt?
  rw [strip_eq_self (noSpace_of_digits hd), splitSign_digits hd]
  simp [hne, hd]

theorem splitSign_dotted {a b : Str} (hd : (a ++ b).all Char.isDigit = true) :
    splitSign (a ++ '.' :: b) = (false, a ++ '.' :: b) := by
  apply splitSign_of_head <;>
  · cases a with
    | nil => simp
    | cons c t =>
      have hc : c.isDigit = true := all_digits_mem hd c (by simp)
      simp only [List.cons_append, List.head?, ne_eq, Option.some.injEq]
      intro he
      exact char_ne_of_isDigit hc (by decide) he

theorem noSpace_dotted {a b : Str} (hd : (a ++ b).all Char.isDigit = true) :
    ∀ c ∈ a ++ '.' :: b, pySpace c = false := by
  intro c hc
  rcases List.mem_append.mp hc with h | h
  · exact pySpace_false_of_isDigit (all_digits_mem hd c (List.mem_append.mpr (.inl h)))
  · rcases List.mem_cons.mp h with rfl | h
    · decide
    · exact pySpace_false_of_isDigit (all_digits_mem hd c (List.mem_append.mpr (.inr h)))

theorem not_dot_mem_of_digits {s : Str} (hd : s.all Char.isDigit = true) :
    '.' ∉ s := by
  intro hm
  have := all_digits_mem hd '.' hm
  cases this

theorem pyFloat?_dotted {a b : Str} (hab : a ++ b ≠ [])
    (hd : (a ++ b).all Char.isDigit = true) :
    pyFloat? (a ++ '.' :: b) =
      some ((digitsVal a : ℚ) + (digitsVal b : ℚ) / 10 ^ b.length) := by
  have hda : a.all Char.isDigit = true := by
    rw [List.all_eq_true] at hd ⊢
    exact fun c hc => hd c (List.mem_append.mpr (.inl hc))
  have hdb : b.all Char.isDigit = true := by
    rw [List.all_eq_true] at hd ⊢
    exact fun c hc => hd c (List.mem_append.mpr (.inr hc))
  unfold pyFloat?
  rw [strip_eq_self (noSpace_dotted hd), splitSign_dotted hd]
  simp only
  rw [splitOnChar_append_cons (not_dot_mem_of_digits hda) b,
    splitOnChar_of_not_mem (not_dot_mem_of_digits hdb)]
  simp [hab, hd]

/-! ### Evaluating `parse_time` by cases on the component count -/

theorem parse_time_ok3 {ts p0 p1 p2 : Str} {h m : ℤ} {s : ℚ}
    (hp : timeParts ts = [p0, p1, p2]) (h0 : pyInt? p0 = some h)
    (h1 : pyInt? p1 = some m) (h2 : pyFloat? p2 = some s) :
    parse_time ts = .ok ((h : ℚ) * 3600 + (m : ℚ) * 60 + s) := by
  simp only [parse_time, hp, h0, h1, h2]

theorem parse_time_ok2 {ts p0 p1 : Str} {m : ℤ} {s : ℚ}
    (hp : timeParts ts = [p0, p1]) (h0 : pyInt? p0 = some m)
    (h1 : pyFloat? p1 = some s) :
    parse_time ts = .ok ((m : ℚ) * 60 + s) := by
  simp only [parse_time, hp, h0, h1]

theorem parse_time_error_count {ts : Str} (h2 : (timeParts ts).length ≠ 2)
    (h3 : (timeParts ts).length ≠ 3) :
    parse_time ts =
      .error ("Unable to parse time format: ".toList ++ timeDefaulted ts) := by
  unfold parse_time
  rcases hp : timeParts ts with _ | ⟨a, _ | ⟨b, _ | ⟨c, _ | ⟨d, r⟩⟩⟩⟩
  · rfl
  · rfl
  · exact absurd (by rw [hp]; rfl) h2
  · exact absurd (by rw [hp]; rfl) h3
  · rfl


/-! ### Computing `timeParts` on structured timestamp strings -/

theorem timeDefaulted_of_dot {ts : Str} (h : '.' ∈ ts) : timeDefaulted ts = ts :=
  if_pos h

theorem timeDefaulted_of_no_dot {ts : Str} (h : '.' ∉ ts) :
    timeDefaulted ts = ts ++ '.' :: ['0', '0', '0'] :=
  if_neg h

theorem timeParts_two {ts a b : Str} (hd : timeDefaulted ts = a ++ ':' :: b)
    (hns : ∀ c ∈ a ++ ':' :: b, pySpace c = false)
    (ha : ':' ∉ a) (hb : ':' ∉ b) : timeParts ts = [a, b] := by
  unfold timeParts
  rw [hd, strip_eq_self hns, splitOnChar_append_cons ha,
    splitOnChar_of_not_mem hb]

theorem timeParts_three {ts a b c : Str}
    (hd : timeDefaulted ts = a ++ ':' :: (b ++ ':' :: c))
    (hns : ∀ x ∈ a ++ ':' :: (b ++ ':' :: c), pySpace x = false)
    (ha : ':' ∉ a) (hb : ':' ∉ b) (hc : ':' ∉ c) : timeParts ts = [a, b, c] := by
  unfold timeParts
  rw [hd, strip_eq_self hns, splitOnChar_append_cons ha,
    splitOnChar_append_cons hb, splitOnChar_of_not_mem hc]

theorem not_colon_mem_of_digits {s : Str} (hd : s.all Char.isDigit = true) :
    ':' ∉ s := by
  intro hm
  have := all_digits_mem hd ':' hm
  cases this

theorem not_colon_mem_dotted {a b : Str} (hd : (a ++ b).all Char.isDigit = true) :
    ':' ∉ a ++ '.' :: b := by
  intro hm
  rcases List.mem_append.mp hm with h | h
  · exact not_colon_mem_of_digits (by
      rw [List.all_eq_true] at hd ⊢
      exact fun c hc => hd c (List.mem_append.mpr (.inl hc))) h
  · rcases List.mem_cons.mp h with h | h
    · cases h
    · exact not_colon_mem_of_digits (by
        rw [List.all_eq_true] at hd ⊢
        exact fun c hc => hd c (List.mem_append.mpr (.inr hc))) h

/-! ### Shape of the rendered LRC timestamp -/

theorem pyTrunc_of_nonneg {q : ℚ} (h : 0 ≤ q) : pyTrunc q = ⌊q⌋ :=
  if_neg (not_lt.mpr h)

theorem seconds_to_lrc_time_eq {q : ℚ} (h : 0 ≤ q) :
    seconds_to_lrc_time q =
      '[' :: pad2 (⌊q / 60⌋).toNat ++ ':' :: pad2 (⌊q⌋ - 60 * ⌊q / 60⌋).toNat ++
        '.' :: pad2 (⌊100 * q⌋ - 100 * ⌊q⌋).toNat ++ [']'] := by
  have hM : (0 : ℤ) ≤ ⌊q / 60⌋ := Int.floor_nonneg.mpr (by positivity)
  have hfl : (60 : ℚ) * (⌊q / 60⌋ : ℚ) ≤ q := by
    have := Int.floor_le (q / 60)
    nlinarith
  have hsecs : (0 : ℚ) ≤ q - 60 * (⌊q / 60⌋ : ℚ) := by linarith
  unfold seconds_to_lrc_time pyMod pyFloorDiv
  rw [if_neg (not_lt.mpr h)]
  dsimp only
  rw [pyTrunc_of_nonneg (by exact_mod_cast hM), Int.floor_intCast]
  have e1 : q - 60 * ((⌊q / 60⌋ : ℤ) : ℚ) = q - 60 * (⌊q / 60⌋ : ℚ) := by norm_num
  rw [e1, pyTrunc_of_nonneg hsecs]
  have e2 : ⌊q - 60 * (⌊q / 60⌋ : ℚ)⌋ = ⌊q⌋ - 60 * ⌊q / 60⌋ := by
    rw [show q - 60 * (⌊q / 60⌋ : ℚ) = q + ((-60) * ⌊q / 60⌋ : ℤ) from by
      push_cast; ring, Int.floor_add_int]
    ring
  rw [e2]
  have e3 : (q - 60 * (⌊q / 60⌋ : ℚ)) * 100 -
      100 * ((⌊(q - 60 * (⌊q / 60⌋ : ℚ)) * 100 / 100⌋ : ℤ) : ℚ) =
      100 * q - ((6000 * ⌊q / 60⌋ + 100 * (⌊q⌋ - 60 * ⌊q / 60⌋) : ℤ) : ℚ) := by
    rw [show (q - 60 * (⌊q / 60⌋ : ℚ)) * 100 / 100 = q - 60 * (⌊q / 60⌋ : ℚ) from by
      field_simp, e2]
    push_cast
    ring
  rw [e3]
  have hfr : (0 : ℚ) ≤ 100 * q - ((6000 * ⌊q / 60⌋ + 100 * (⌊q⌋ - 60 * ⌊q / 60⌋) : ℤ) : ℚ) := by
    have h1 : ((⌊q⌋ : ℚ)) ≤ q := Int.floor_le q
    push_cast
    nlinarith
  rw [pyTrunc_of_nonneg hfr]
  have e4 : ⌊100 * q - ((6000 * ⌊q / 60⌋ + 100 * (⌊q⌋ - 60 * ⌊q / 60⌋) : ℤ) : ℚ)⌋ =
      ⌊100 * q⌋ - 100 * ⌊q⌋ := by
    rw [show 100 * q - ((6000 * ⌊q / 60⌋ + 100 * (⌊q⌋ - 60 * ⌊q / 60⌋) : ℤ) : ℚ) =
      100 * q + ((-(6000 * ⌊q / 60⌋ + 100 * (⌊q⌋ - 60 * ⌊q / 60⌋)) : ℤ) : ℚ) from by
      push_cast; ring, Int.floor_add_int]
    ring
  rw [e4]


theorem pad2_all (n : ℕ) : (pad2 n).all Char.isDigit = true :=
  List.all_eq_true.mpr (pad2_all_digits n)

theorem lrcInner_render (A B C : Str) :
    lrcInner ('[' :: A ++ ':' :: B ++ '.' :: C ++ [']']) =
      A ++ ':' :: B ++ '.' :: C := by
  unfold lrcInner
  simp only [List.cons_append, List.drop_succ_cons, List.drop_zero]
  rw [show A ++ ':' :: B ++ '.' :: C ++ [']'] =
    (A ++ ':' :: B ++ '.' :: C) ++ [']'] from by simp, List.dropLast_concat]

/-- C8: for every seconds value ≥ 0, rendering it as an LRC `[MM:SS.CC]`
stamp (minutes unbounded, centiseconds truncated) and re-parsing the
minute/second portion with the timestamp parser recovers the value
truncated to centisecond precision, `⌊100q⌋/100`. -/
theorem C8_roundtrip (q : ℚ) (h : 0 ≤ q) :
    parse_time (lrcInner (seconds_to_lrc_time q)) =
      .ok ((⌊100 * q⌋ : ℚ) / 100) := by
  have hM : (0 : ℤ) ≤ ⌊q / 60⌋ := Int.floor_nonneg.mpr (by positivity)
  have hfl : (60 : ℚ) * (⌊q / 60⌋ : ℚ) ≤ q := by
    have := Int.floor_le (q / 60)
    nlinarith
  have hS : (0 : ℤ) ≤ ⌊q⌋ - 60 * ⌊q / 60⌋ := by
    have : 60 * ⌊q / 60⌋ ≤ ⌊q⌋ := Int.le_floor.mpr (by push_cast; linarith)
    omega
  have hC0 : (0 : ℤ) ≤ ⌊100 * q⌋ - 100 * ⌊q⌋ := by
    have : 100 * ⌊q⌋ ≤ ⌊100 * q⌋ := Int.le_floor.mpr (by
      have := Int.floor_le q
      push_cast
      nlinarith)
    omega
  have hC1 : ⌊100 * q⌋ - 100 * ⌊q⌋ < 100 := by
    have : ⌊100 * q⌋ < 100 * ⌊q⌋ + 100 := Int.floor_lt.mpr (by
      have := Int.lt_floor_add_one q
      push_cast
      nlinarith)
    omega
  set M : ℤ := ⌊q / 60⌋ with hMdef
  set S : ℤ := ⌊q⌋ - 60 * ⌊q / 60⌋ with hSdef
  set C : ℤ := ⌊100 * q⌋ - 100 * ⌊q⌋ with hCdef
  rw [seconds_to_lrc_time_eq h, lrcInner_render]
  have hts : timeParts (pad2 M.toNat ++ ':' :: pad2 S.toNat ++
      '.' :: pad2 C.toNat) = [pad2 M.toNat, pad2 S.toNat ++ '.' :: pad2 C.toNat] := by
    rw [show (pad2 M.toNat ++ ':' :: pad2 S.toNat ++ '.' :: pad2 C.toNat : Str) =
      pad2 M.toNat ++ ':' :: (pad2 S.toNat ++ '.' :: pad2 C.toNat) from by simp]
    apply timeParts_two
    · apply timeDefaulted_of_dot
      simp
    · intro c hc
      simp only [List.mem_append, List.mem_cons] at hc
      rcases hc with hc | hc | hc | hc | hc
      · exact pySpace_false_of_isDigit (pad2_all_digits _ c hc)
      · subst hc; decide
      · exact pySpace_false_of_isDigit (pad2_all_digits _ c hc)
      · subst hc; decide
      · exact pySpace_false_of_isDigit (pad2_all_digits _ c hc)
    · exact not_colon_mem_of_digits (pad2_all _)
    · apply not_colon_mem_dotted
      rw [List.all_append, pad2_all, pad2_all]
      rfl
  have hint : pyInt? (pad2 M.toNat) = some (M.toNat : ℤ) := by
    rw [pyInt?_digits (pad2_ne_nil _) (pad2_all _), digitsVal_pad2]
  have hfloat : pyFloat? (pad2 S.toNat ++ '.' :: pad2 C.toNat) =
      some ((S.toNat : ℚ) + (C.toNat : ℚ) / 10 ^ 2) := by
    rw [pyFloat?_dotted (by simp [pad2_ne_nil]) (by
      rw [List.all_append, pad2_all, pad2_all]; rfl),
      digitsVal_pad2, digitsVal_pad2, pad2_length (by omega : C.toNat < 100)]
  rw [parse_time_ok2 hts hint hfloat]
  congr 1
  have hMc : ((M.toNat : ℕ) : ℚ) = (M : ℚ) := by
    exact_mod_cast congrArg (fun z : ℤ => (z : ℚ)) (Int.toNat_of_nonneg hM)
  have hSc : ((S.toNat : ℕ) : ℚ) = (S : ℚ) := by
    exact_mod_cast congrArg (fun z : ℤ => (z : ℚ)) (Int.toNat_of_nonneg hS)
  have hCc : ((C.toNat : ℕ) : ℚ) = (C : ℚ) := by
    exact_mod_cast congrArg (fun z : ℤ => (z : ℚ)) (Int.toNat_of_nonneg hC0)
  push_cast
  rw [hMc, hSc, hCc, hMdef, hSdef, hCdef]
  push_cast
  ring

/-- C8 witness: the round-trip law applied at the concrete input `20.4`. -/
theorem C8_roundtrip_witness :
    (0 : ℚ) ≤ 20.4 ∧ parse_time (lrcInner (seconds_to_lrc_time 20.4)) =
      .ok ((⌊(100 : ℚ) * 20.4⌋ : ℚ) / 100) :=
  ⟨by norm_num, C8_roundtrip 20.4 (by norm_num)⟩


/-! ### Parsing structured `HH:MM:SS.mmm` / `MM:SS.mmm` strings -/

theorem noSpace_hms {hh mm ss ff : Str} (d1 : hh.all Char.isDigit = true)
    (d2 : mm.all Char.isDigit = true) (d3 : ss.all Char.isDigit = true)
    (d4 : ff.all Char.isDigit = true) :
    ∀ c ∈ hh ++ ':' :: (mm ++ ':' :: (ss ++ '.' :: ff)), pySpace c = false := by
  intro c hc
  simp only [List.mem_append, List.mem_cons] at hc
  rcases hc with hc | hc | hc | hc | hc | hc | hc
  · exact pySpace_false_of_isDigit (all_digits_mem d1 c hc)
  · subst hc; decide
  · exact pySpace_false_of_isDigit (all_digits_mem d2 c hc)
  · subst hc; decide
  · exact pySpace_false_of_isDigit (all_digits_mem d3 c hc)
  · subst hc; decide
  · exact pySpace_false_of_isDigit (all_digits_mem d4 c hc)

theorem noSpace_ms {mm ss ff : Str} (d2 : mm.all Char.isDigit = true)
    (d3 : ss.all Char.isDigit = true) (d4 : ff.all Char.isDigit = true) :
    ∀ c ∈ mm ++ ':' :: (ss ++ '.' :: ff), pySpace c = false := by
  intro c hc
  simp only [List.mem_append, List.mem_cons] at hc
  rcases hc with hc | hc | hc | hc | hc
  · exact pySpace_false_of_isDigit (all_digits_mem d2 c hc)
  · subst hc; decide
  · exact pySpace_false_of_isDigit (all_digits_mem d3 c hc)
  · subst hc; decide
  · exact pySpace_false_of_isDigit (all_digits_mem d4 c hc)

theorem all_digits_append {a b : Str} (da : a.all Char.isDigit = true)
    (db : b.all Char.isDigit = true) : (a ++ b).all Char.isDigit = true := by
  rw [List.all_append, da, db]
  rfl

theorem parse_time_hms {ts hh mm ss ff : Str}
    (hd : timeDefaulted ts = hh ++ ':' :: (mm ++ ':' :: (ss ++ '.' :: ff)))
    (h1 : hh ≠ []) (h2 : mm ≠ []) (h3 : ss ≠ [])
    (d1 : hh.all Char.isDigit = true) (d2 : mm.all Char.isDigit = true)
    (d3 : ss.all Char.isDigit = true) (d4 : ff.all Char.isDigit = true) :
    parse_time ts = .ok ((digitsVal hh : ℚ) * 3600 + (digitsVal mm : ℚ) * 60 +
      ((digitsVal ss : ℚ) + (digitsVal ff : ℚ) / 10 ^ ff.length)) := by
  have hp : timeParts ts = [hh, mm, ss ++ '.' :: ff] :=
    timeParts_three hd (noSpace_hms d1 d2 d3 d4)
      (not_colon_mem_of_digits d1) (not_colon_mem_of_digits d2)
      (not_colon_mem_dotted (all_digits_append d3 d4))
  have hi1 : pyInt? hh = some ((digitsVal hh : ℕ) : ℤ) := pyInt?_digits h1 d1
  have hi2 : pyInt? mm = some ((digitsVal mm : ℕ) : ℤ) := pyInt?_digits h2 d2
  have hf : pyFloat? (ss ++ '.' :: ff) =
      some ((digitsVal ss : ℚ) + (digitsVal ff : ℚ) / 10 ^ ff.length) :=
    pyFloat?_dotted (by simp [h3]) (all_digits_append d3 d4)
  rw [parse_time_ok3 hp hi1 hi2 hf]
  norm_num

theorem parse_time_ms {ts mm ss ff : Str}
    (hd : timeDefaulted ts = mm ++ ':' :: (ss ++ '.' :: ff))
    (h2 : mm ≠ []) (h3 : ss ≠ [])
    (d2 : mm.all Char.isDigit = true) (d3 : ss.all Char.isDigit = true)
    (d4 : ff.all Char.isDigit = true) :
    parse_time ts = .ok ((digitsVal mm : ℚ) * 60 +
      ((digitsVal ss : ℚ) + (digitsVal ff : ℚ) / 10 ^ ff.length)) := by
  have hp : timeParts ts = [mm, ss ++ '.' :: ff] :=
    timeParts_two hd (noSpace_ms d2 d3 d4) (not_colon_mem_of_digits d2)
      (not_colon_mem_dotted (all_digits_append d3 d4))
  have hi2 : pyInt? mm = some ((digitsVal mm : ℕ) : ℤ) := pyInt?_digits h2 d2
  have hf : pyFloat? (ss ++ '.' :: ff) =
      some ((digitsVal ss : ℚ) + (digitsVal ff : ℚ) / 10 ^ ff.length) :=
    pyFloat?_dotted (by simp [h3]) (all_digits_append d3 d4)
  rw [parse_time_ok2 hp hi2 hf]
  norm_num


theorem natToStr_all (n : ℕ) : (natToStr n).all Char.isDigit = true :=
  List.all_eq_true.mpr (natToStr_all_digits n)

theorem map_commaDot_digits {s : Str} (hd : s.all Char.isDigit = true) :
    (s.map fun c => if c = ',' then '.' else c) = s := by
  induction s with
  | nil => rfl
  | cons c t ih =>
    have hc : c.isDigit = true := all_digits_mem hd c (by simp)
    have ht : t.all Char.isDigit = true := by
      rw [List.all_eq_true] at hd ⊢
      exact fun x hx => hd x (by simp [hx])
    simp only [List.map_cons, ih ht,
      if_neg (char_ne_of_isDigit hc (by decide) : c ≠ ',')]

theorem not_dot_mem_ms {a b : Str} (da : a.all Char.isDigit = true)
    (db : b.all Char.isDigit = true) : '.' ∉ a ++ ':' :: b := by
  intro hm
  rcases List.mem_append.mp hm with h | h
  · have := all_digits_mem da '.' h; cases this
  · rcases List.mem_cons.mp h with h | h
    · cases h
    · have := all_digits_mem db '.' h; cases this

/-- C4: the timestamp parser first defaults a missing fractional part to
`.000`, then splits on `:` (this staging is `timeParts`); with exactly
three components it returns `hours*3600 + minutes*60 + seconds`, with
exactly two it returns `minutes*60 + seconds` (hours = 0), and with any
other component count it fails with the `ValueError` message carrying the
offending text. -/
theorem C4_parse_time_component_cases :
    (∀ ts : Str, timeParts ts = splitOnChar ':' (strip (timeDefaulted ts))) ∧
    (∀ (ts p0 p1 p2 : Str) (h m : ℤ) (s : ℚ),
      timeParts ts = [p0, p1, p2] → pyInt? p0 = some h → pyInt? p1 = some m →
      pyFloat? p2 = some s →
      parse_time ts = .ok ((h : ℚ) * 3600 + (m : ℚ) * 60 + s)) ∧
    (∀ (ts p0 p1 : Str) (m : ℤ) (s : ℚ),
      timeParts ts = [p0, p1] → pyInt? p0 = some m → pyFloat? p1 = some s →
      parse_time ts = .ok ((m : ℚ) * 60 + s)) ∧
    (∀ ts : Str, (timeParts ts).length ≠ 2 → (timeParts ts).length ≠ 3 →
      parse_time ts =
        .error ("Unable to parse time format: ".toList ++ timeDefaulted ts)) :=
  ⟨fun _ => rfl,
   fun _ _ _ _ _ _ _ hp h0 h1 h2 => parse_time_ok3 hp h0 h1 h2,
   fun _ _ _ _ _ hp h0 h1 => parse_time_ok2 hp h0 h1,
   fun _ h2 h3 => parse_time_error_count h2 h3⟩

/-- C4 witness: both a successful three-component parse and the
wrong-component-count failure, at concrete inputs. -/
theorem C4_witness :
    parse_time "01:02:03.5".toList =
        .ok (((1 : ℤ) : ℚ) * 3600 + ((2 : ℤ) : ℚ) * 60 + 3.5) ∧
      parse_time "5".toList =
        .error ("Unable to parse time format: 5.000".toList) := by
  constructor
  · have hf : pyFloat? "03.5".toList = some 3.5 := by
      rw [show ("03.5".toList : Str) = "03".toList ++ '.' :: "5".toList from by decide,
        pyFloat?_dotted (by decide) (by decide)]
      norm_num [show digitsVal ['0', '3'] = 3 from by decide,
        show digitsVal ['5'] = 5 from by decide]
    exact C4_parse_time_component_cases.2.1 "01:02:03.5".toList "01".toList
      "02".toList "03.5".toList 1 2 3.5 (by decide) (by decide) (by decide) hf
  · have h := C4_parse_time_component_cases.2.2.2 "5".toList (by decide) (by decide)
    rw [show ("Unable to parse time format: ".toList ++ timeDefaulted "5".toList : Str) =
      "Unable to parse time format: 5.000".toList from by decide] at h
    exact h

/-- C5: the parser accepts the comma-decimal variants of `HH:MM:SS.mmm`
and `MM:SS.mmm` once the comma is normalized to `.` (as `parse_srt_file`
does with `replace(',', '.')`), and they parse to the same seconds value
as the corresponding dot-decimal form. -/
theorem C5_comma_variants :
    (∀ hh mm ss ff : Str, hh ≠ [] → mm ≠ [] → ss ≠ [] →
      hh.all Char.isDigit = true → mm.all Char.isDigit = true →
      ss.all Char.isDigit = true → ff.all Char.isDigit = true →
      replaceCommaDot (hh ++ ':' :: (mm ++ ':' :: (ss ++ ',' :: ff))) =
          hh ++ ':' :: (mm ++ ':' :: (ss ++ '.' :: ff)) ∧
        parse_time (replaceCommaDot (hh ++ ':' :: (mm ++ ':' :: (ss ++ ',' :: ff)))) =
          parse_time (hh ++ ':' :: (mm ++ ':' :: (ss ++ '.' :: ff))) ∧
        parse_time (hh ++ ':' :: (mm ++ ':' :: (ss ++ '.' :: ff))) =
          .ok ((digitsVal hh : ℚ) * 3600 + (digitsVal mm : ℚ) * 60 +
            ((digitsVal ss : ℚ) + (digitsVal ff : ℚ) / 10 ^ ff.length))) ∧
    (∀ mm ss ff : Str, mm ≠ [] → ss ≠ [] →
      mm.all Char.isDigit = true → ss.all Char.isDigit = true →
      ff.all Char.isDigit = true →
      replaceCommaDot (mm ++ ':' :: (ss ++ ',' :: ff)) =
          mm ++ ':' :: (ss ++ '.' :: ff) ∧
        parse_time (replaceCommaDot (mm ++ ':' :: (ss ++ ',' :: ff))) =
          parse_time (mm ++ ':' :: (ss ++ '.' :: ff)) ∧
        parse_time (mm ++ ':' :: (ss ++ '.' :: ff)) =
          .ok ((digitsVal mm : ℚ) * 60 +
            ((digitsVal ss : ℚ) + (digitsVal ff : ℚ) / 10 ^ ff.length))) := by
  constructor
  · intro hh mm ss ff h1 h2 h3 d1 d2 d3 d4
    have e : replaceCommaDot (hh ++ ':' :: (mm ++ ':' :: (ss ++ ',' :: ff))) =
        hh ++ ':' :: (mm ++ ':' :: (ss ++ '.' :: ff)) := by
      unfold replaceCommaDot
      simp only [List.map_append, List.map_cons]
      rw [map_commaDot_digits d1, map_commaDot_digits d2, map_commaDot_digits d3,
        map_commaDot_digits d4]
      simp
    refine ⟨e, by rw [e], ?_⟩
    exact parse_time_hms (timeDefaulted_of_dot (by simp)) h1 h2 h3 d1 d2 d3 d4
  · intro mm ss ff h2 h3 d2 d3 d4
    have e : replaceCommaDot (mm ++ ':' :: (ss ++ ',' :: ff)) =
        mm ++ ':' :: (ss ++ '.' :: ff) := by
      unfold replaceCommaDot
      simp only [List.map_append, List.map_cons]
      rw [map_commaDot_digits d2, map_commaDot_digits d3, map_commaDot_digits d4]
      simp
    refine ⟨e, by rw [e], ?_⟩
    exact parse_time_ms (timeDefaulted_of_dot (by simp)) h2 h3 d2 d3 d4

/-- C5 witness: the comma variant `00:00:20,000` normalizes to
`00:00:20.000` and both parse to 20 seconds. -/
theorem C5_witness :
    parse_time (replaceCommaDot ("00".toList ++ ':' ::
        ("00".toList ++ ':' :: ("20".toList ++ ',' :: "000".toList)))) =
      .ok ((digitsVal "00".toList : ℚ) * 3600 + (digitsVal "00".toList : ℚ) * 60 +
        ((digitsVal "20".toList : ℚ) +
          (digitsVal "000".toList : ℚ) / 10 ^ ("000".toList : Str).length)) := by
  have h := C5_comma_variants.1 "00".toList "00".toList "20".toList "000".toList
    (by decide) (by decide) (by decide) (by decide) (by decide) (by decide) (by decide)
  rw [h.2.1, h.2.2]

/-- C10: the timestamp parser performs no range validation: any
non-negative integer minute and second components are accepted, so
`99:99.5` parses to `6039.5`, the same value as the distinct text
`100:39.5`. -/
theorem C10_no_range_validation :
    (∀ m s : ℕ, parse_time (natToStr m ++ ':' :: natToStr s) =
      .ok ((m : ℚ) * 60 + (s : ℚ))) ∧
    parse_time "99:99.5".toList = .ok (6039.5 : ℚ) ∧
    parse_time "100:39.5".toList = .ok (6039.5 : ℚ) ∧
    "99:99.5".toList ≠ "100:39.5".toList := by
  refine ⟨?_, ?_, ?_, by decide⟩
  · intro m s
    have hdot : '.' ∉ natToStr m ++ ':' :: natToStr s :=
      not_dot_mem_ms (natToStr_all m) (natToStr_all s)
    have hd : timeDefaulted (natToStr m ++ ':' :: natToStr s) =
        natToStr m ++ ':' :: (natToStr s ++ '.' :: ['0', '0', '0']) := by
      rw [timeDefaulted_of_no_dot hdot]
      simp
    rw [parse_time_ms hd (natToStr_ne_nil m) (natToStr_ne_nil s)
      (natToStr_all m) (natToStr_all s) (by decide)]
    rw [digitsVal_natToStr, digitsVal_natToStr,
      show digitsVal ['0', '0', '0'] = 0 from by decide]
    norm_num
  · rw [show ("99:99.5".toList : Str) =
      "99".toList ++ ':' :: ("99".toList ++ '.' :: "5".toList) from by decide]
    rw [parse_time_ms (timeDefaulted_of_dot (by decide)) (by decide) (by decide)
      (by decide) (by decide) (by decide)]
    norm_num [show digitsVal ['9', '9'] = 99 from by decide,
      show digitsVal ['5'] = 5 from by decide]
  · rw [show ("100:39.5".toList : Str) =
      "100".toList ++ ':' :: ("39".toList ++ '.' :: "5".toList) from by decide]
    rw [parse_time_ms (timeDefaulted_of_dot (by decide)) (by decide) (by decide)
      (by decide) (by decide) (by decide)]
    norm_num [show digitsVal ['1', '0', '0'] = 100 from by decide,
      show digitsVal ['3', '9'] = 39 from by decide,
      show digitsVal ['5'] = 5 from by decide]


/-! ### Window filter and renderer: step lemmas -/

theorem filter_subtitles_nil (ws we : ℚ) : filter_subtitles [] ws we = [] := rfl

theorem filter_subtitles_cons_pos {c : Cue} {subs : List Cue} {ws we : ℚ}
    (h : c.1 < we ∧ c.2.1 > ws) :
    filter_subtitles (c :: subs) ws we = c :: filter_subtitles subs ws we := by
  unfold filter_subtitles
  rw [List.filter_cons, decide_eq_true h]
  rfl

theorem filter_subtitles_cons_neg {c : Cue} {subs : List Cue} {ws we : ℚ}
    (h : ¬(c.1 < we ∧ c.2.1 > ws)) :
    filter_subtitles (c :: subs) ws we = filter_subtitles subs ws we := by
  unfold filter_subtitles
  rw [List.filter_cons, decide_eq_false h]
  rfl

theorem convert_nil (offset : ℚ) : convert_to_lrc_lines [] offset = [] := rfl

theorem convert_cons_pos {c : Cue} {subs : List Cue} {offset : ℚ}
    (h : c.1 - offset ≥ 0) :
    convert_to_lrc_lines (c :: subs) offset =
      (seconds_to_lrc_time (c.1 - offset) ++ c.2.2) ::
        convert_to_lrc_lines subs offset := by
  unfold convert_to_lrc_lines
  rw [List.filter_cons, decide_eq_true h]
  rfl

theorem convert_cons_neg {c : Cue} {subs : List Cue} {offset : ℚ}
    (h : c.1 - offset < 0) :
    convert_to_lrc_lines (c :: subs) offset = convert_to_lrc_lines subs offset := by
  unfold convert_to_lrc_lines
  rw [List.filter_cons, decide_eq_false (not_le.mpr h)]
  rfl

/-- C2: the window filter keeps a cue exactly when
`cue.start < window.end AND cue.end > window.start`; in particular a cue
`(5, 6)` is kept for window `(0, 5.5)` and dropped for window `(6, 10)`,
which it only touches at the boundary. -/
theorem C2_window_overlap :
    (∀ (subs : List Cue) (ws we : ℚ) (c : Cue),
      c ∈ filter_subtitles subs ws we ↔ c ∈ subs ∧ c.1 < we ∧ c.2.1 > ws) ∧
    (∀ t : Str, filter_subtitles [(5, 6, t)] 0 5.5 = [(5, 6, t)] ∧
      filter_subtitles [(5, 6, t)] 6 10 = []) := by
  constructor
  · intro subs ws we c
    unfold filter_subtitles
    rw [List.mem_filter, decide_eq_true_eq]
  · intro t
    constructor
    · rw [filter_subtitles_cons_pos (by norm_num), filter_subtitles_nil]
    · rw [filter_subtitles_cons_neg (by norm_num), filter_subtitles_nil]

/-- C2 witness: the boundary examples at a concrete text. -/
theorem C2_witness :
    filter_subtitles [(5, 6, ['x'])] 0 5.5 = [(5, 6, ['x'])] ∧
      filter_subtitles [(5, 6, ['x'])] 6 10 = [] :=
  C2_window_overlap.2 ['x']

/-- C3: the renderer computes `remapped_start = cue.start - offset` and
drops (never clamps) any line whose remapped start is negative; the cue
`(4, 6)` with window `(5, 10)` passes the overlap filter yet produces no
output line. -/
theorem C3_negative_offset_drop :
    (∀ (c : Cue) (subs : List Cue) (offset : ℚ), c.1 - offset < 0 →
      convert_to_lrc_lines (c :: subs) offset = convert_to_lrc_lines subs offset) ∧
    (∀ (c : Cue) (subs : List Cue) (offset : ℚ), c.1 - offset ≥ 0 →
      convert_to_lrc_lines (c :: subs) offset =
        (seconds_to_lrc_time (c.1 - offset) ++ c.2.2) ::
          convert_to_lrc_lines subs offset) ∧
    (∀ t : Str, filter_subtitles [(4, 6, t)] 5 10 = [(4, 6, t)] ∧
      convert_to_lrc_lines (filter_subtitles [(4, 6, t)] 5 10) 5 = []) := by
  refine ⟨fun c subs offset h => convert_cons_neg h,
    fun c subs offset h => convert_cons_pos h, fun t => ?_⟩
  have hf : filter_subtitles [(4, 6, t)] 5 10 = [(4, 6, t)] := by
    rw [filter_subtitles_cons_pos (by norm_num), filter_subtitles_nil]
  refine ⟨hf, ?_⟩
  rw [hf, convert_cons_neg (by norm_num), convert_nil]

/-- C3 witness: the negative-remap drop applied at a concrete cue. -/
theorem C3_witness :
    convert_to_lrc_lines [((4 : ℚ), (6 : ℚ), ['x'])] 5 =
      convert_to_lrc_lines [] 5 :=
  C3_negative_offset_drop.1 (4, 6, ['x']) [] 5 (by norm_num)

/-- C9: called on a negative value, `seconds_to_lrc_time` clamps to the
zero stamp `[00:00.00]` instead of failing; and through the pipeline every
rendered line comes from a cue whose remapped start is non-negative, so
negative inputs never reach the renderer. -/
theorem C9_clamp_negative :
    (∀ q : ℚ, q < 0 → seconds_to_lrc_time q = "[00:00.00]".toList) ∧
    (∀ (subs : List Cue) (offset : ℚ) (line : Str),
      line ∈ convert_to_lrc_lines subs offset →
      ∃ c ∈ subs, c.1 - offset ≥ 0 ∧
        line = seconds_to_lrc_time (c.1 - offset) ++ c.2.2) := by
  constructor
  · intro q h
    have h0 : seconds_to_lrc_time q = seconds_to_lrc_time 0 := by
      unfold seconds_to_lrc_time
      rw [if_pos h, if_neg (lt_irrefl 0)]
    rw [h0, seconds_to_lrc_time_eq le_rfl]
    norm_num
    decide
  · intro subs offset line hline
    unfold convert_to_lrc_lines at hline
    rw [List.mem_map] at hline
    obtain ⟨c, hc, hline⟩ := hline
    rw [List.mem_filter, decide_eq_true_eq] at hc
    exact ⟨c, hc.1, hc.2, hline.symm⟩

/-- C9 witness: the clamp applied at the concrete input `-1`. -/
theorem C9_witness : seconds_to_lrc_time (-1) = "[00:00.00]".toList :=
  C9_clamp_negative.1 (-1) (by norm_num)


/-! ### Sortedness and stability of the cue ordering -/

instance : IsTotal Cue (fun a b => a.1 ≤ b.1) := ⟨fun a b => le_total a.1 b.1⟩

instance : IsTrans Cue (fun a b => a.1 ≤ b.1) := ⟨fun _ _ _ h1 h2 => le_trans h1 h2⟩

theorem dedupGo_sublist (last : Cue) (l : List Cue) :
    (dedupGo last l).Sublist l := by
  induction l generalizing last with
  | nil => simp [dedupGo]
  | cons c rest ih =>
    unfold dedupGo
    by_cases h : c.2.2 ≠ last.2.2 ∧ |c.1 - last.1| > 0.1
    · rw [if_pos h]
      exact (ih c).cons₂ c
    · rw [if_neg h]
      exact (ih last).cons c

theorem dedup_sublist (l : List Cue) : (dedup l).Sublist l := by
  cases l with
  | nil => simp [dedup]
  | cons c rest => exact (dedupGo_sublist c rest).cons₂ c

theorem filter_orderedInsert_pos {v : ℚ} {a : Cue} (h : a.1 = v) (l : List Cue) :
    (List.orderedInsert (fun a b : Cue => a.1 ≤ b.1) a l).filter
        (fun c => decide (c.1 = v)) =
      a :: l.filter (fun c => decide (c.1 = v)) := by
  induction l with
  | nil => simp [List.orderedInsert, List.filter_cons, h]
  | cons b t ih =>
    by_cases hle : a.1 ≤ b.1
    · rw [List.orderedInsert, if_pos hle]
      simp [List.filter_cons, h]
    · have hbv : ¬(b.1 = v) := by
        rw [← h]
        exact ne_of_lt (not_le.mp hle)
      rw [List.orderedInsert, if_neg hle]
      simp only [List.filter_cons, decide_eq_false hbv, ih]
      simp

theorem filter_orderedInsert_neg {v : ℚ} {a : Cue} (h : ¬(a.1 = v)) (l : List Cue) :
    (List.orderedInsert (fun a b : Cue => a.1 ≤ b.1) a l).filter
        (fun c => decide (c.1 = v)) =
      l.filter (fun c => decide (c.1 = v)) := by
  induction l with
  | nil => simp [List.orderedInsert, List.filter_cons, h]
  | cons b t ih =>
    by_cases hle : a.1 ≤ b.1
    · rw [List.orderedInsert, if_pos hle]
      simp [List.filter_cons, h]
    · rw [List.orderedInsert, if_neg hle]
      simp only [List.filter_cons, ih]

/-- C7: the cue sequence returned by the document parser is sorted
non-decreasingly by start, and the sort is stable: for every start value,
the cues carrying it appear in the same order as in the unsorted input
(the characteristic property of a stable sort by key). -/
theorem C7_sorted_and_stable :
    (∀ content : Str,
      (parse_srt_file content).Pairwise (fun a b : Cue => a.1 ≤ b.1)) ∧
    (∀ (l : List Cue) (v : ℚ),
      (List.insertionSort (fun a b : Cue => a.1 ≤ b.1) l).filter
          (fun c => decide (c.1 = v)) =
        l.filter (fun c => decide (c.1 = v))) := by
  constructor
  · intro content
    unfold parse_srt_file
    exact List.Pairwise.sublist (dedup_sublist _)
      (List.sorted_insertionSort (fun a b : Cue => a.1 ≤ b.1) _)
  · intro l v
    induction l with
    | nil => rfl
    | cons c t ih =>
      rw [List.insertionSort]
      by_cases hv : c.1 = v
      · rw [filter_orderedInsert_pos hv, ih, List.filter_cons, decide_eq_true hv]
        simp
      · rw [filter_orderedInsert_neg hv, ih, List.filter_cons, decide_eq_false hv]
        simp


/-! ### Evaluating the document parser on concrete documents -/

theorem parse_time_concrete (hh mm ss ff : Str) {ts : Str} {q : ℚ}
    (he : ts = hh ++ ':' :: (mm ++ ':' :: (ss ++ '.' :: ff)))
    (h1 : hh ≠ []) (h2 : mm ≠ []) (h3 : ss ≠ [])
    (d1 : hh.all Char.isDigit = true) (d2 : mm.all Char.isDigit = true)
    (d3 : ss.all Char.isDigit = true) (d4 : ff.all Char.isDigit = true)
    (hq : (digitsVal hh : ℚ) * 3600 + (digitsVal mm : ℚ) * 60 +
      ((digitsVal ss : ℚ) + (digitsVal ff : ℚ) / 10 ^ ff.length) = q) :
    parse_time ts = .ok q := by
  subst he
  rw [parse_time_hms (timeDefaulted_of_dot (by simp)) h1 h2 h3 d1 d2 d3 d4, hq]

theorem blockCue_some (l0 l1 l2 : Str) (ls : List Str) (g1 g2 : Str)
    {block : Str} {a b : ℚ} {text : Str}
    (hsplit : splitOnChar '\n' (strip block) = l0 :: l1 :: l2 :: ls)
    (hsearch : searchTime l1 = some (g1, g2))
    (ha : parse_time (replaceCommaDot g1) = .ok a)
    (hb : parse_time (replaceCommaDot g2) = .ok b)
    (htext : strip (stripTags (strip (List.intercalate [' '] (l2 :: ls)))) = text)
    (hne : text ≠ []) :
    blockCue block = some (a, b, text) := by
  simp only [blockCue, hsplit, hsearch, ha, hb, htext]
  rw [if_neg hne]

theorem insertionSort_two {c1 c2 : Cue} (h : c1.1 ≤ c2.1) :
    List.insertionSort (fun a b : Cue => a.1 ≤ b.1) [c1, c2] = [c1, c2] := by
  simp [List.insertionSort, List.orderedInsert, h]

theorem dedup_two_drop {c1 c2 : Cue}
    (h : ¬(c2.2.2 ≠ c1.2.2 ∧ |c2.1 - c1.1| > 0.1)) : dedup [c1, c2] = [c1] := by
  simp [dedup, dedupGo, h]

theorem dedup_two_keep {c1 c2 : Cue}
    (h : c2.2.2 ≠ c1.2.2 ∧ |c2.1 - c1.1| > 0.1) : dedup [c1, c2] = [c1, c2] := by
  simp [dedup, dedupGo, h]

theorem filterMap_blockCue_skip (pre post : List Str) {b : Str}
    (hb : blockCue b = none) :
    (pre ++ b :: post).filterMap blockCue = (pre ++ post).filterMap blockCue := by
  induction pre with
  | nil => simp [List.filterMap_cons_none hb]
  | cons a t ih =>
    rw [List.cons_append, List.cons_append, List.filterMap_cons,
      List.filterMap_cons, ih]

/-- C1: the deduplication drops MORE than the near-duplicates the spec
describes.  The code keeps a cue only when its text differs from the
previous retained cue AND its start is more than 0.1 s away; so it drops
a different-text cue starting 0.05 s after the previous one (first
document) and drops an identical-text cue 40 s later (second document).
The claim says both must be kept; the code's own comments ("remove
duplicates", "only add if it's not a duplicate") describe the claimed
policy, so this is a code bug (an `and`/`or` slip in the keep condition). -/
theorem C1_dedup_code_behavior :
    parse_srt_file
        "1\n00:00:20,000 --> 00:00:24,000\nHello\n\n2\n00:00:20,050 --> 00:00:25,000\nWorld".toList =
      [(20, 24, "Hello".toList)] ∧
    parse_srt_file
        "1\n00:00:20,000 --> 00:00:24,000\nHello\n\n2\n00:01:00,000 --> 00:01:04,000\nHello".toList =
      [(20, 24, "Hello".toList)] := by
  have pt20 : parse_time (replaceCommaDot "00:00:20,000".toList) = .ok 20 :=
    parse_time_concrete "00".toList "00".toList "20".toList "000".toList
      (by decide) (by decide) (by decide) (by decide) (by decide) (by decide)
      (by decide) (by decide)
      (by norm_num [show digitsVal ['0', '0'] = 0 from by decide,
        show digitsVal ['2', '0'] = 20 from by decide,
        show digitsVal ['0', '0', '0'] = 0 from by decide])
  have pt24 : parse_time (replaceCommaDot "00:00:24,000".toList) = .ok 24 :=
    parse_time_concrete "00".toList "00".toList "24".toList "000".toList
      (by decide) (by decide) (by decide) (by decide) (by decide) (by decide)
      (by decide) (by decide)
      (by norm_num [show digitsVal ['0', '0'] = 0 from by decide,
        show digitsVal ['2', '4'] = 24 from by decide,
        show digitsVal ['0', '0', '0'] = 0 from by decide])
  have pt2005 : parse_time (replaceCommaDot "00:00:20,050".toList) = .ok 20.05 :=
    parse_time_concrete "00".toList "00".toList "20".toList "050".toList
      (by decide) (by decide) (by decide) (by decide) (by decide) (by decide)
      (by decide) (by decide)
      (by norm_num [show digitsVal ['0', '0'] = 0 from by decide,
        show digitsVal ['2', '0'] = 20 from by decide,
        show digitsVal ['0', '5', '0'] = 50 from by decide])
  have pt25 : parse_time (replaceCommaDot "00:00:25,000".toList) = .ok 25 :=
    parse_time_concrete "00".toList "00".toList "25".toList "000".toList
      (by decide) (by decide) (by decide) (by decide) (by decide) (by decide)
      (by decide) (by decide)
      (by norm_num [show digitsVal ['0', '0'] = 0 from by decide,
        show digitsVal ['2', '5'] = 25 from by decide,
        show digitsVal ['0', '0', '0'] = 0 from by decide])
  have pt60 : parse_time (replaceCommaDot "00:01:00,000".toList) = .ok 60 :=
    parse_time_concrete "00".toList "01".toList "00".toList "000".toList
      (by decide) (by decide) (by decide) (by decide) (by decide) (by decide)
      (by decide) (by decide)
      (by norm_num [show digitsVal ['0', '0'] = 0 from by decide,
        show digitsVal ['0', '1'] = 1 from by decide,
        show digitsVal ['0', '0', '0'] = 0 from by decide])
  have pt64 : parse_time (replaceCommaDot "00:01:04,000".toList) = .ok 64 :=
    parse_time_concrete "00".toList "01".toList "04".toList "000".toList
      (by decide) (by decide) (by decide) (by decide) (by decide) (by decide)
      (by decide) (by decide)
      (by norm_num [show digitsVal ['0', '0'] = 0 from by decide,
        show digitsVal ['0', '1'] = 1 from by decide,
        show digitsVal ['0', '4'] = 4 from by decide,
        show digitsVal ['0', '0', '0'] = 0 from by decide])
  have hb1 : blockCue "1\n00:00:20,000 --> 00:00:24,000\nHello".toList =
      some (20, 24, "Hello".toList) :=
    blockCue_some "1".toList "00:00:20,000 --> 00:00:24,000".toList
      "Hello".toList [] "00:00:20,000".toList "00:00:24,000".toList
      (by decide) (by decide) pt20 pt24 (by decide) (by decide)
  have hb2 : blockCue "2\n00:00:20,050 --> 00:00:25,000\nWorld".toList =
      some (20.05, 25, "World".toList) :=
    blockCue_some "2".toList "00:00:20,050 --> 00:00:25,000".toList
      "World".toList [] "00:00:20,050".toList "00:00:25,000".toList
      (by decide) (by decide) pt2005 pt25 (by decide) (by decide)
  have hb3 : blockCue "2\n00:01:00,000 --> 00:01:04,000\nHello".toList =
      some (60, 64, "Hello".toList) :=
    blockCue_some "2".toList "00:01:00,000 --> 00:01:04,000".toList
      "Hello".toList [] "00:01:00,000".toList "00:01:04,000".toList
      (by decide) (by decide) pt60 pt64 (by decide) (by decide)
  constructor
  · unfold parse_srt_file
    dsimp only
    rw [if_neg (by decide), show splitOnNlNl (strip
        "1\n00:00:20,000 --> 00:00:24,000\nHello\n\n2\n00:00:20,050 --> 00:00:25,000\nWorld".toList) =
      ["1\n00:00:20,000 --> 00:00:24,000\nHello".toList,
        "2\n00:00:20,050 --> 00:00:25,000\nWorld".toList] from by decide,
      List.filterMap_cons_some hb1, List.filterMap_cons_some hb2,
      List.filterMap_nil, insertionSort_two (by norm_num),
      dedup_two_drop (by norm_num [abs_of_pos])]
  · unfold parse_srt_file
    dsimp only
    rw [if_neg (by decide), show splitOnNlNl (strip
        "1\n00:00:20,000 --> 00:00:24,000\nHello\n\n2\n00:01:00,000 --> 00:01:04,000\nHello".toList) =
      ["1\n00:00:20,000 --> 00:00:24,000\nHello".toList,
        "2\n00:01:00,000 --> 00:01:04,000\nHello".toList] from by decide,
      List.filterMap_cons_some hb1, List.filterMap_cons_some hb3,
      List.filterMap_nil, insertionSort_two (by norm_num),
      dedup_two_drop (by intro hcon; exact hcon.1 rfl)]

/-- C6: a block that yields no cue (missing or unmatched arrow line,
unparseable timestamps, or empty text) is skipped and the remaining
blocks of the document still produce exactly their cues; concretely, a
document with a malformed middle block parses identically to the same
document without it. -/
theorem C6_bad_block_skipped :
    (∀ (pre post : List Str) (b : Str), blockCue b = none →
      (pre ++ b :: post).filterMap blockCue = (pre ++ post).filterMap blockCue) ∧
    parse_srt_file
        "1\n00:00:20,000 --> 00:00:24,000\nHello\n\ngarbage no arrow\nstill garbage\nmore\n\n3\n00:01:00,000 --> 00:01:02,000\nWorld".toList =
      parse_srt_file
        "1\n00:00:20,000 --> 00:00:24,000\nHello\n\n3\n00:01:00,000 --> 00:01:02,000\nWorld".toList := by
  constructor
  · exact fun pre post b hb => filterMap_blockCue_skip pre post hb
  · unfold parse_srt_file
    dsimp only
    rw [if_neg (by decide), if_neg (by decide), show splitOnNlNl (strip
        "1\n00:00:20,000 --> 00:00:24,000\nHello\n\ngarbage no arrow\nstill garbage\nmore\n\n3\n00:01:00,000 --> 00:01:02,000\nWorld".toList) =
      ["1\n00:00:20,000 --> 00:00:24,000\nHello".toList] ++
        "garbage no arrow\nstill garbage\nmore".toList ::
          ["3\n00:01:00,000 --> 00:01:02,000\nWorld".toList] from by decide,
      show splitOnNlNl (strip
        "1\n00:00:20,000 --> 00:00:24,000\nHello\n\n3\n00:01:00,000 --> 00:01:02,000\nWorld".toList) =
      ["1\n00:00:20,000 --> 00:00:24,000\nHello".toList] ++
        ["3\n00:01:00,000 --> 00:01:02,000\nWorld".toList] from by decide,
      filterMap_blockCue_skip _ _ (by decide)]

/-- C6 witness: the skip law applied at a concrete bad block between
concrete neighbours. -/
theorem C6_witness :
    (["1\n00:00:20,000 --> 00:00:24,000\nHello".toList] ++
        "garbage no arrow\nstill garbage\nmore".toList ::
          ["3\n00:01:00,000 --> 00:01:02,000\nWorld".toList]).filterMap blockCue =
      (["1\n00:00:20,000 --> 00:00:24,000\nHello".toList] ++
        ["3\n00:01:00,000 --> 00:01:02,000\nWorld".toList]).filterMap blockCue :=
  C6_bad_block_skipped.1 _ _ _ (by decide)

end YtLrc
